import Mathlib

/-!
Verification development for the PRT (precomputed radiance transfer)
precompute pipeline implemented in prt.cpp.  The definitions below are a
shallow embedding of that source: floating-point scalars are modelled as
real numbers, the scene ray-intersection routine is an abstract query
function, and the random draws consumed by the stratified sampling loops
are an explicit stream of values.
-/

namespace PRT

/-! Configuration parsing and the IO-effect skeleton of preprocess. -/

/-- The three transport policies of the integrator (enum Type in the source). -/
inductive PType where
  | unshadowed
  | shadowed
  | interreflection
deriving DecidableEq

/-- The property list consumed by the PRTIntegrator constructor: the values
returned by getInteger("PRTSampleCount", 100), getString("cubemap"),
getString("type", "unshadowed") and getInteger("bounce", 1). -/
structure PropList where
  sampleCount : ℕ
  cubemap : String
  typeStr : String
  bounce : ℕ

/-- The state established by a successful PRTIntegrator construction. -/
structure PRTConfig where
  sampleCount : ℕ
  cubemapPath : String
  ty : PType
  bounce : ℕ

/-- Embeds the PRTIntegrator constructor: it maps the policy string to the
enum, stores the bounce count only for interreflection (member default 1
otherwise), and throws NoriException on any other policy string. -/
def constructPRT (props : PropList) : Except String PRTConfig :=
  if props.typeStr = "unshadowed" then
    Except.ok ⟨props.sampleCount, props.cubemap, PType.unshadowed, 1⟩
  else if props.typeStr = "shadowed" then
    Except.ok ⟨props.sampleCount, props.cubemap, PType.shadowed, 1⟩
  else if props.typeStr = "interreflection" then
    Except.ok ⟨props.sampleCount, props.cubemap, PType.interreflection, props.bounce⟩
  else
    Except.error ("Unsupported type: " ++ props.typeStr)

/-- Metadata of a decoded cubemap face: width, height, channel count as
reported by stbi_loadf. -/
structure ImgMeta where
  w : ℤ
  h : ℤ
  c : ℤ
deriving DecidableEq

/-- Embeds the loop body of ProjEnv.LoadCubemapImages for the faces after
the first: a missing face (none) or a face whose metadata differs from the
first face aborts the run (exit(-1), modelled as none). -/
def loadRest (m : ImgMeta) : List (Option ImgMeta) → Option ImgMeta
  | [] => some m
  | none :: _ => none
  | some mi :: rest =>
      if mi.w ≠ m.w ∨ mi.h ≠ m.h ∨ mi.c ≠ m.c then none else loadRest m rest

/-- Embeds ProjEnv.LoadCubemapImages over the six face load results in the
fixed name order (negx, posx, posy, negy, posz, negz).  Returns the shared
metadata on success, none when the loop calls exit(-1). -/
def loadCubemapImages : List (Option ImgMeta) → Option ImgMeta
  | [] => none
  | none :: _ => none
  | some m :: rest => loadRest m rest

/-- Observable filesystem effects of the precompute step. -/
inductive Effect where
  | createFile : String → Effect
  | abortRun : Effect
deriving DecidableEq

/-- Embeds the IO skeleton of PRTIntegrator.preprocess up to the cubemap
load: the two std::ofstream constructors create (and truncate) light.txt
and transport.txt, and only then is LoadCubemapImages called; a load
failure exits the process at that point.  The boolean records whether the
run aborted. -/
def preprocessEffects (cubeDir : String) (faces : List (Option ImgMeta)) :
    List Effect × Bool :=
  let created := [Effect.createFile (cubeDir ++ "/light.txt"),
                  Effect.createFile (cubeDir ++ "/transport.txt")]
  match loadCubemapImages faces with
  | none => (created ++ [Effect.abortRun], true)
  | some _ => (created, false)

/-- Construction followed by preprocess: a construction failure propagates
before preprocess runs, so no filesystem effect is performed. -/
def runPRT (props : PropList) (faces : List (Option ImgMeta)) :
    List Effect × Bool :=
  match constructPRT props with
  | Except.error _ => ([], true)
  | Except.ok cfg => preprocessEffects cfg.cubemapPath faces

/-- C2: the claim says a fatal asset error aborts the run with no output
file persisted.  The run does abort, but evaluating the effect skeleton at
a cubemap whose first face fails to load shows that both output files were
already created (truncated empty) before the load, so two empty output
files persist. -/
theorem c2_partial_files_on_abort :
    (preprocessEffects "cubemap"
        [none, some ⟨128, 128, 3⟩, some ⟨128, 128, 3⟩, some ⟨128, 128, 3⟩,
         some ⟨128, 128, 3⟩, some ⟨128, 128, 3⟩]).2 = true
    ∧ Effect.createFile ("cubemap" ++ "/light.txt")
        ∈ (preprocessEffects "cubemap"
            [none, some ⟨128, 128, 3⟩, some ⟨128, 128, 3⟩, some ⟨128, 128, 3⟩,
             some ⟨128, 128, 3⟩, some ⟨128, 128, 3⟩]).1
    ∧ Effect.createFile ("cubemap" ++ "/transport.txt")
        ∈ (preprocessEffects "cubemap"
            [none, some ⟨128, 128, 3⟩, some ⟨128, 128, 3⟩, some ⟨128, 128, 3⟩,
             some ⟨128, 128, 3⟩, some ⟨128, 128, 3⟩]).1 := by
  refine ⟨rfl, ?_, ?_⟩ <;> simp [preprocessEffects, loadCubemapImages]

/-- C7: an unrecognized policy string makes the constructor throw before
preprocess can run, so the whole run performs no computation and creates
no file. -/
theorem c7_unknown_policy_fatal (props : PropList) (faces : List (Option ImgMeta))
    (h1 : props.typeStr ≠ "unshadowed") (h2 : props.typeStr ≠ "shadowed")
    (h3 : props.typeStr ≠ "interreflection") :
    constructPRT props = Except.error ("Unsupported type: " ++ props.typeStr)
    ∧ runPRT props faces = ([], true) := by
  have hc : constructPRT props
      = Except.error ("Unsupported type: " ++ props.typeStr) := by
    unfold constructPRT
    rw [if_neg h1, if_neg h2, if_neg h3]
  refine ⟨hc, ?_⟩
  unfold runPRT
  rw [hc]

/-- Witness for c7_unknown_policy_fatal at the concrete policy string
"phong". -/
theorem c7_unknown_policy_witness :
    (("phong" : String) ≠ "unshadowed" ∧ ("phong" : String) ≠ "shadowed"
      ∧ ("phong" : String) ≠ "interreflection")
    ∧ (constructPRT ⟨100, "cube", "phong", 1⟩
          = Except.error ("Unsupported type: " ++ "phong")
        ∧ runPRT ⟨100, "cube", "phong", 1⟩ [] = ([], true)) :=
  ⟨⟨by decide, by decide, by decide⟩,
    c7_unknown_policy_fatal ⟨100, "cube", "phong", 1⟩ []
      (by decide) (by decide) (by decide)⟩

/-! Geometry and the transport projection.  Floating-point values are
modelled as real numbers. -/

noncomputable section

/-- A 3-vector of scalars (Eigen Vector3f / Normal3f / Point3f / Color3f). -/
structure Vec3 where
  x : ℝ
  y : ℝ
  z : ℝ

/-- Componentwise dot product (Eigen dot). -/
def dotV (a b : Vec3) : ℝ := a.x * b.x + a.y * b.y + a.z * b.z

/-- Scalar multiple of a vector. -/
def smulV (c : ℝ) (a : Vec3) : Vec3 := ⟨c * a.x, c * a.y, c * a.z⟩

/-- Componentwise sum of two vectors. -/
def addV (a b : Vec3) : Vec3 := ⟨a.x + b.x, a.y + b.y, a.z + b.z⟩

/-- Euclidean norm (Eigen norm). -/
def normV (a : Vec3) : ℝ := Real.sqrt (dotV a a)

/-- Eigen normalized(): the vector divided by its norm. -/
def normalizeV (a : Vec3) : Vec3 := smulV (1 / normV a) a

/-- Embeds sh::ToVector of the external SH library: converts spherical
angles (phi azimuth, theta polar) to a Cartesian unit direction. -/
def toVector (phi theta : ℝ) : Vec3 :=
  ⟨Real.sin theta * Real.cos phi, Real.sin theta * Real.sin phi, Real.cos theta⟩

/-- A ray given by origin and direction (Ray3f construction in the source). -/
structure Ray where
  origin : Vec3
  dir : Vec3

/-- The hit record of a successful scene intersection: the three vertex
indices of the hit triangle (its.tri_index) and the barycentric weights
(its.bary). -/
structure Hit where
  i0 : ℕ
  i1 : ℕ
  i2 : ℕ
  bary : Vec3

/-- The scene ray-intersection routine, consumed as a black box: none
models rayIntersect returning false, some h models a hit filling the
Intersection record. -/
def RayQuery : Type := Ray → Option Hit

/-- A triangle mesh as consumed by preprocess: per-vertex positions and
normals indexed by vertex index, and the triangle list of vertex-index
triples (columns of getIndices()). -/
structure Mesh where
  vertexCount : ℕ
  pos : ℕ → Vec3
  normal : ℕ → Vec3
  triangles : List (ℕ × ℕ × ℕ)

instance : Inhabited Mesh := ⟨⟨0, fun _ => ⟨0, 0, 0⟩, fun _ => ⟨0, 0, 0⟩, []⟩⟩

/-- A scene: its list of meshes (getMeshes()) and its intersection query. -/
structure Scene where
  meshes : List Mesh
  query : RayQuery

/-- SH order, fixed at 2 in the source. -/
def SHOrder : ℕ := 2

/-- Number of SH coefficients: (order + 1) squared = 9. -/
def SHCoeffLength : ℕ := (SHOrder + 1) * (SHOrder + 1)

/-- The transport coefficient matrix, indexed (coefficient, vertex); the
source stores it as a 9 x vertexCount Eigen matrix. -/
def TMatrix : Type := ℕ → ℕ → ℝ

/-- The cosine term computed in the source sampling loops:
wi.normalized().dot(n.normalized()). -/
def cosain (wi n : Vec3) : ℝ := dotV (normalizeV wi) (normalizeV n)

/-- From the spec: the cosine of the angle between a direction and the
vertex normal, written as the dot product over the product of norms. -/
def cosAngleSpec (wi n : Vec3) : ℝ := dotV wi n / (normV wi * normV n)

/-- Embeds the shFunc lambda of PRTIntegrator.preprocess: the transport
term of a single direction under the configured policy.  Unshadowed
returns the clamped cosine without consulting the scene; the other two
policies cast a ray from the vertex toward the direction and return the
cosine only when it is positive and the ray reports no hit. -/
def shFunc (ty : PType) (sceneHit : Ray → Bool) (v n : Vec3) (phi theta : ℝ) : ℝ :=
  match ty with
  | PType.unshadowed =>
      if 0 < cosain (toVector phi theta) n then cosain (toVector phi theta) n else 0
  | _ =>
      if 0 < cosain (toVector phi theta) n
          ∧ sceneHit ⟨v, toVector phi theta⟩ = false
      then cosain (toVector phi theta) n else 0

lemma cosain_eq_cosAngleSpec (wi n : Vec3) : cosain wi n = cosAngleSpec wi n := by
  unfold cosain cosAngleSpec normalizeV normV dotV smulV
  simp only [one_div]
  rw [div_eq_mul_inv, mul_inv]
  ring

/-- C5: the transport function of the base projection pass.  Unshadowed is
the clamped cosine of the angle between the sampled direction and the
vertex normal, and is independent of the scene query; Shadowed returns the
cosine exactly when it is positive and the ray from the vertex reports no
hit; the Interreflection base pass is identical to Shadowed. -/
theorem c5_transport_function (sc sc2 : Ray → Bool) (v n : Vec3) (phi theta : ℝ) :
    (shFunc PType.unshadowed sc v n phi theta
        = max 0 (cosAngleSpec (toVector phi theta) n)
      ∧ shFunc PType.unshadowed sc v n phi theta
        = shFunc PType.unshadowed sc2 v n phi theta)
    ∧ shFunc PType.shadowed sc v n phi theta
        = (if 0 < cosAngleSpec (toVector phi theta) n
              ∧ sc ⟨v, toVector phi theta⟩ = false
           then cosAngleSpec (toVector phi theta) n else 0)
    ∧ shFunc PType.interreflection sc v n phi theta
        = shFunc PType.shadowed sc v n phi theta := by
  have hc := cosain_eq_cosAngleSpec (toVector phi theta) n
  refine ⟨⟨?_, rfl⟩, ?_, rfl⟩
  · show (if 0 < cosain (toVector phi theta) n then cosain (toVector phi theta) n else 0)
        = max 0 (cosAngleSpec (toVector phi theta) n)
    rw [← hc]
    by_cases h : 0 < cosain (toVector phi theta) n
    · rw [if_pos h, max_eq_right h.le]
    · rw [if_neg h, max_eq_left (not_lt.mp h)]
  · show (if 0 < cosain (toVector phi theta) n
          ∧ sc ⟨v, toVector phi theta⟩ = false
        then cosain (toVector phi theta) n else 0) = _
    rw [hc]

/-! The interreflection bounce accumulator.  The source draws two uniform
randoms per sample from a freshly seeded generator; the embedding makes
the drawn values an explicit stream indexed by draw position. -/

/-- A stream of uniform [0,1) draws, one value per rng(gen) call. -/
def Entropy : Type := ℕ → ℝ

/-- Embeds sample_side = static_cast of floor(sqrt(m_SampleCount)). -/
def sampleSide (n : ℕ) : ℕ := Nat.sqrt n

/-- Embeds the Monte Carlo weight of the source bounce loop:
4 pi / (sample_side * sample_side). -/
def weight (s : ℕ) : ℝ := 4 * Real.pi / ((s : ℝ) * (s : ℝ))

/-- Position of the first of the two draws consumed by sample (t, p) of
vertex i when the grid side is s. -/
def drawIndex (s i t p : ℕ) : ℕ := 2 * (i * s * s + t * s + p)

/-- Embeds the stratified direction generation of the bounce loop:
alpha = (t + rng)/s, beta = (p + rng)/s, phi = 2 pi beta,
theta = acos(2 alpha - 1), direction = sh::ToVector(phi, theta). -/
def bounceSampleDir (e : Entropy) (s i t p : ℕ) : Vec3 :=
  toVector
    (2 * Real.pi * (((p : ℝ) + e (drawIndex s i t p + 1)) / (s : ℝ)))
    (Real.arccos (2 * (((t : ℝ) + e (drawIndex s i t p)) / (s : ℝ)) - 1))

/-- Embeds the barycentric interpolation of one transport coefficient at a
hit record: the previous-matrix columns at the three hit vertex indices
weighted by the barycentric coordinates. -/
def interpSH (M : TMatrix) (h : Hit) (j : ℕ) : ℝ :=
  M j h.i0 * h.bary.x + M j h.i1 * h.bary.y + M j h.i2 * h.bary.z

/-- Embeds the body of the bounce sampling loop for one sample direction:
when the cosine is positive and the ray from the vertex hits geometry, the
interpolated coefficient scaled by the cosine is accumulated, else zero. -/
def bounceSampleContrib (q : RayQuery) (M : TMatrix) (v n wi : Vec3) (j : ℕ) : ℝ :=
  match q ⟨v, wi⟩ with
  | none => 0
  | some h => if 0 < cosain wi n then interpSH M h j * cosain wi n else 0

/-- Embeds the accumulated ExtraCoeffs entry j of vertex i before the
weight scaling: the sum over the s x s stratified samples. -/
def vertexExtraRaw (q : RayQuery) (M : TMatrix) (mesh : Mesh) (e : Entropy)
    (s i j : ℕ) : ℝ :=
  ∑ t ∈ Finset.range s, ∑ p ∈ Finset.range s,
    bounceSampleContrib q M (mesh.pos i) (mesh.normal i) (bounceSampleDir e s i t p) j

/-- Embeds the ExtraCoeffs entry after the (*= weight) scaling, as written
into column i of extraCoeffsBuffer. -/
def vertexExtra (q : RayQuery) (M : TMatrix) (mesh : Mesh) (e : Entropy)
    (s i j : ℕ) : ℝ :=
  vertexExtraRaw q M mesh e s i j * weight s

/-- Overwrite column i of a matrix with the given column. -/
def updateCol (B : TMatrix) (i : ℕ) (c : ℕ → ℝ) : TMatrix :=
  fun j i2 => if i2 = i then c j else B j i2

/-- One iteration of the per-vertex bounce loop: the state is the pair
(m_TransportSHCoeffs, extraCoeffsBuffer); the body reads the transport
matrix component and writes only the buffer column of the current vertex,
exactly as the source loop does. -/
def bounceBody (q : RayQuery) (mesh : Mesh) (e : Entropy) (s : ℕ)
    (st : TMatrix × TMatrix) (i : ℕ) : TMatrix × TMatrix :=
  (st.1, updateCol st.2 i (fun j => vertexExtra q st.1 mesh e s i j))

/-- The whole per-vertex loop of one bounce, starting from the running
transport matrix and a fresh buffer. -/
def bounceLoop (q : RayQuery) (mesh : Mesh) (e : Entropy) (s : ℕ) (M : TMatrix) :
    TMatrix × TMatrix :=
  (List.range mesh.vertexCount).foldl (bounceBody q mesh e s) (M, fun _ _ => 0)

/-- One full bounce: run the per-vertex loop, then add the buffer into the
running transport matrix (the single commit after the loop). -/
def bounceStep (q : RayQuery) (mesh : Mesh) (e : Entropy) (s : ℕ) (M : TMatrix) :
    TMatrix :=
  fun j i => (bounceLoop q mesh e s M).1 j i + (bounceLoop q mesh e s M).2 j i

/-- The transport matrix after b bounces of the interreflection loop; eFam
gives the entropy stream consumed by each bounce. -/
def afterBounces (q : RayQuery) (mesh : Mesh) (eFam : ℕ → Entropy) (s : ℕ)
    (base : TMatrix) : ℕ → TMatrix
  | 0 => base
  | b + 1 => bounceStep q mesh (eFam b) s (afterBounces q mesh eFam s base b)

lemma bounceFold_fst (q : RayQuery) (mesh : Mesh) (e : Entropy) (s : ℕ) :
    ∀ (l : List ℕ) (st : TMatrix × TMatrix),
      (l.foldl (bounceBody q mesh e s) st).1 = st.1 := by
  intro l
  induction l with
  | nil => intro st; rfl
  | cons a l ih =>
      intro st
      rw [List.foldl_cons, ih]
      rfl

lemma bounceFold_snd (q : RayQuery) (mesh : Mesh) (e : Entropy) (s : ℕ)
    (M : TMatrix) :
    ∀ (l : List ℕ) (B : TMatrix) (j i : ℕ),
      (l.foldl (bounceBody q mesh e s) (M, B)).2 j i
        = if i ∈ l then vertexExtra q M mesh e s i j else B j i := by
  intro l
  induction l with
  | nil => intro B j i; simp
  | cons a l ih =>
      intro B j i
      rw [List.foldl_cons]
      have hbody : bounceBody q mesh e s (M, B) a
          = (M, updateCol B a (fun j => vertexExtra q M mesh e s a j)) := rfl
      rw [hbody, ih]
      by_cases hil : i ∈ l
      · simp [hil]
      · by_cases hia : i = a
        · subst hia
          simp [hil, updateCol]
        · simp [hil, hia, updateCol]

lemma bounceLoop_fst (q : RayQuery) (mesh : Mesh) (e : Entropy) (s : ℕ)
    (M : TMatrix) : (bounceLoop q mesh e s M).1 = M :=
  bounceFold_fst q mesh e s (List.range mesh.vertexCount) (M, fun _ _ => 0)

lemma bounceLoop_snd (q : RayQuery) (mesh : Mesh) (e : Entropy) (s : ℕ)
    (M : TMatrix) (j i : ℕ) :
    (bounceLoop q mesh e s M).2 j i
      = if i < mesh.vertexCount then vertexExtra q M mesh e s i j else 0 := by
  unfold bounceLoop
  rw [bounceFold_snd]
  simp [List.mem_range]

lemma bounceStep_apply (q : RayQuery) (mesh : Mesh) (e : Entropy) (s : ℕ)
    (M : TMatrix) (j i : ℕ) :
    bounceStep q mesh e s M j i
      = M j i + (if i < mesh.vertexCount then vertexExtra q M mesh e s i j else 0) := by
  unfold bounceStep
  rw [bounceLoop_fst, bounceLoop_snd]

/-- C6: double buffering of the interreflection bounce.  During the
per-vertex loop the running transport matrix is never modified; the buffer
column committed for each vertex is a function of the transport state as
it was when the bounce began; and the running matrix is updated exactly
once, by adding the buffer after the loop has finished. -/
theorem c6_double_buffering (q : RayQuery) (mesh : Mesh) (e : Entropy) (s : ℕ)
    (M : TMatrix) (i : ℕ) (hi : i < mesh.vertexCount) :
    (bounceLoop q mesh e s M).1 = M
    ∧ (∀ j, (bounceLoop q mesh e s M).2 j i = vertexExtra q M mesh e s i j)
    ∧ (∀ j i2, bounceStep q mesh e s M j i2
        = M j i2 + (bounceLoop q mesh e s M).2 j i2) := by
  refine ⟨bounceLoop_fst q mesh e s M, ?_, ?_⟩
  · intro j
    rw [bounceLoop_snd, if_pos hi]
  · intro j i2
    unfold bounceStep
    rw [bounceLoop_fst]

/-! Concrete objects used by the witnesses below. -/

/-- A query that never hits. -/
def wQnone : RayQuery := fun _ => none

/-- A hit record on triangle (0,0,0) with barycentric weights (1,0,0). -/
def wHit : Hit := ⟨0, 0, 0, ⟨1, 0, 0⟩⟩

/-- A query that always returns the hit record wHit. -/
def wQhit : RayQuery := fun _ => some wHit

/-- A one-vertex mesh at the origin with normal (0,0,1). -/
def wMesh : Mesh := ⟨1, fun _ => ⟨0, 0, 0⟩, fun _ => ⟨0, 0, 1⟩, [(0, 0, 0)]⟩

/-- The all-zero entropy stream. -/
def wE0 : Entropy := fun _ => 0

/-- The constant one-half entropy stream. -/
def wEhalf : Entropy := fun _ => 1 / 2

/-- The constant one entropy stream. -/
def wEone : Entropy := fun _ => 1

/-- An entropy stream agreeing with wE0 on the first two draws only. -/
def wE2 : Entropy := fun k => if k < 2 then 0 else 5

/-- The all-ones transport matrix. -/
def wMones : TMatrix := fun _ _ => 1

/-- The all-zero transport matrix. -/
def wMzero : TMatrix := fun _ _ => 0

/-- Witness for c6_double_buffering at a concrete one-vertex bounce. -/
theorem c6_double_buffering_witness :
    0 < wMesh.vertexCount
    ∧ ((bounceLoop wQnone wMesh wE0 1 wMzero).1 = wMzero
        ∧ (∀ j, (bounceLoop wQnone wMesh wE0 1 wMzero).2 j 0
            = vertexExtra wQnone wMzero wMesh wE0 1 0 j)
        ∧ (∀ j i2, bounceStep wQnone wMesh wE0 1 wMzero j i2
            = wMzero j i2 + (bounceLoop wQnone wMesh wE0 1 wMzero).2 j i2)) :=
  ⟨by decide, c6_double_buffering wQnone wMesh wE0 1 wMzero 0 (by decide)⟩

lemma weight_nonneg (s : ℕ) : 0 ≤ weight s := by
  unfold weight
  apply div_nonneg
  · have := Real.pi_pos
    linarith
  · positivity

lemma vertexExtra_nonneg (q : RayQuery) (M : TMatrix) (mesh : Mesh) (e : Entropy)
    (s i : ℕ)
    (hb : ∀ r h, q r = some h → 0 ≤ h.bary.x ∧ 0 ≤ h.bary.y ∧ 0 ≤ h.bary.z)
    (hM : ∀ i2, 0 ≤ M 0 i2) :
    0 ≤ vertexExtra q M mesh e s i 0 := by
  unfold vertexExtra
  apply mul_nonneg _ (weight_nonneg s)
  unfold vertexExtraRaw
  apply Finset.sum_nonneg
  intro t _
  apply Finset.sum_nonneg
  intro p _
  unfold bounceSampleContrib
  cases hq : q ⟨mesh.pos i, bounceSampleDir e s i t p⟩ with
  | none => exact le_refl 0
  | some h =>
      dsimp only
      by_cases hpos : 0 < cosain (bounceSampleDir e s i t p) (mesh.normal i)
      · rw [if_pos hpos]
        apply mul_nonneg _ hpos.le
        unfold interpSH
        have hbar := hb _ _ hq
        have h1 := mul_nonneg (hM h.i0) hbar.1
        have h2 := mul_nonneg (hM h.i1) hbar.2.1
        have h3 := mul_nonneg (hM h.i2) hbar.2.2
        linarith
      · rw [if_neg hpos]

/-- C4: monotonicity of the zeroth transport coefficient across bounces.
Assuming the external guarantee that hit records carry non-negative
barycentric weights, and physically plausible (non-negative) zeroth-row
coefficients in the base transport matrix, each interreflection bounce can
only increase the zeroth coefficient of every vertex, because every
per-sample contribution is a product of non-negative factors. -/
theorem c4_zeroth_coeff_monotone (q : RayQuery) (mesh : Mesh) (eFam : ℕ → Entropy)
    (s : ℕ) (base : TMatrix)
    (hb : ∀ r h, q r = some h → 0 ≤ h.bary.x ∧ 0 ≤ h.bary.y ∧ 0 ≤ h.bary.z)
    (h0 : ∀ i, 0 ≤ base 0 i) (b i : ℕ) :
    afterBounces q mesh eFam s base b 0 i
      ≤ afterBounces q mesh eFam s base (b + 1) 0 i := by
  have inv : ∀ c i2, 0 ≤ afterBounces q mesh eFam s base c 0 i2 := by
    intro c
    induction c with
    | zero => exact h0
    | succ c ih =>
        intro i2
        show 0 ≤ bounceStep q mesh (eFam c) s (afterBounces q mesh eFam s base c) 0 i2
        rw [bounceStep_apply]
        refine add_nonneg (ih i2) ?_
        by_cases hlt : i2 < mesh.vertexCount
        · rw [if_pos hlt]
          exact vertexExtra_nonneg q _ mesh (eFam c) s i2 hb ih
        · rw [if_neg hlt]
  show afterBounces q mesh eFam s base b 0 i
      ≤ bounceStep q mesh (eFam b) s (afterBounces q mesh eFam s base b) 0 i
  rw [bounceStep_apply]
  refine le_add_of_nonneg_right ?_
  by_cases hlt : i < mesh.vertexCount
  · rw [if_pos hlt]
    exact vertexExtra_nonneg q _ mesh (eFam b) s i hb (inv b)
  · rw [if_neg hlt]

/-- Witness for c4_zeroth_coeff_monotone at a concrete no-hit scene with
the zero base matrix. -/
theorem c4_monotone_witness :
    ((∀ r h, wQnone r = some h → 0 ≤ h.bary.x ∧ 0 ≤ h.bary.y ∧ 0 ≤ h.bary.z)
      ∧ (∀ i, 0 ≤ wMzero 0 i))
    ∧ afterBounces wQnone wMesh (fun _ => wE0) 1 wMzero 0 0 0
        ≤ afterBounces wQnone wMesh (fun _ => wE0) 1 wMzero (0 + 1) 0 0 := by
  have hb : ∀ r h, wQnone r = some h → 0 ≤ h.bary.x ∧ 0 ≤ h.bary.y ∧ 0 ≤ h.bary.z := by
    intro r h hrh
    simp [wQnone] at hrh
  have h0 : ∀ i, (0 : ℝ) ≤ wMzero 0 i := fun _ => le_refl 0
  exact ⟨⟨hb, h0⟩,
    c4_zeroth_coeff_monotone wQnone wMesh (fun _ => wE0) 1 wMzero hb h0 0 0⟩

/-- C3 counterexample: at the configured sample count 10 the bounce loop
scales by 4 pi / 9 (sample_side = floor(sqrt(10)) = 3), not by 4 pi / 10,
so the claimed weight 4 pi / N is wrong for a non-square N. -/
theorem c3_counterexample : weight (sampleSide 10) ≠ 4 * Real.pi / 10 := by
  have hs : sampleSide 10 = 3 := by
    have h1 : 3 ≤ Nat.sqrt 10 := Nat.le_sqrt.mpr (by norm_num)
    have h2 : Nat.sqrt 10 < 4 := Nat.sqrt_lt.mpr (by norm_num)
    unfold sampleSide
    omega
  rw [hs]
  unfold weight
  intro h
  have hpi := Real.pi_pos
  rw [show (((3 : ℕ) : ℝ) * ((3 : ℕ) : ℝ)) = 9 by norm_num] at h
  rw [div_eq_div_iff (by norm_num) (by norm_num)] at h
  nlinarith

/-- C3 amended: the per-vertex bounce accumulation scales the summed
per-sample contributions by 4 pi / sample_side^2 where
sample_side = floor(sqrt(N)); this equals the claimed 4 pi / N exactly
when N is a perfect square (as the default N = 100 is). -/
theorem c3_weight_amended (n : ℕ) (hn : 0 < n) :
    (∀ (q : RayQuery) (M : TMatrix) (mesh : Mesh) (e : Entropy) (i j : ℕ),
        vertexExtra q M mesh e (sampleSide n) i j
          = vertexExtraRaw q M mesh e (sampleSide n) i j
              * (4 * Real.pi / (((sampleSide n : ℕ) : ℝ) * ((sampleSide n : ℕ) : ℝ))))
    ∧ (weight (sampleSide n) = 4 * Real.pi / ((n : ℕ) : ℝ)
        ↔ sampleSide n * sampleSide n = n) := by
  constructor
  · intro q M mesh e i j
    rfl
  · have hs : 0 < sampleSide n := Nat.sqrt_pos.mpr hn
    have hsr : (0 : ℝ) < ((sampleSide n : ℕ) : ℝ) := by exact_mod_cast hs
    have hnr : (0 : ℝ) < ((n : ℕ) : ℝ) := by exact_mod_cast hn
    unfold weight
    constructor
    · intro h
      rw [div_eq_div_iff (by positivity) hnr.ne'] at h
      have h4 : (0 : ℝ) < 4 * Real.pi := by
        have := Real.pi_pos
        linarith
      have hcast : ((n : ℕ) : ℝ) = ((sampleSide n : ℕ) : ℝ) * ((sampleSide n : ℕ) : ℝ) := by
        apply mul_left_cancel₀ h4.ne'
        linarith [h]
      exact_mod_cast hcast.symm
    · intro h
      have hcast : ((n : ℕ) : ℝ)
          = ((sampleSide n : ℕ) : ℝ) * ((sampleSide n : ℕ) : ℝ) := by
        exact_mod_cast h.symm
      rw [hcast]

/-- Witness for c3_weight_amended at the default sample count 100, where
sample_side = 10 and the weight is exactly 4 pi / 100. -/
theorem c3_weight_witness :
    0 < 100
    ∧ ((∀ (q : RayQuery) (M : TMatrix) (mesh : Mesh) (e : Entropy) (i j : ℕ),
          vertexExtra q M mesh e (sampleSide 100) i j
            = vertexExtraRaw q M mesh e (sampleSide 100) i j
                * (4 * Real.pi / (((sampleSide 100 : ℕ) : ℝ) * ((sampleSide 100 : ℕ) : ℝ))))
        ∧ (weight (sampleSide 100) = 4 * Real.pi / ((100 : ℕ) : ℝ)
            ↔ sampleSide 100 * sampleSide 100 = 100)) :=
  ⟨by decide, c3_weight_amended 100 (by decide)⟩

lemma vertexExtra_entropy_congr (q : RayQuery) (M : TMatrix) (mesh : Mesh)
    (ea eb : Entropy) (s i j : ℕ) (hi : i < mesh.vertexCount)
    (h : ∀ k, k < 2 * (mesh.vertexCount * s * s) → ea k = eb k) :
    vertexExtra q M mesh ea s i j = vertexExtra q M mesh eb s i j := by
  unfold vertexExtra vertexExtraRaw
  congr 1
  apply Finset.sum_congr rfl
  intro t ht
  apply Finset.sum_congr rfl
  intro p hp
  rw [Finset.mem_range] at ht hp
  have htp : t * s + p < s * s := by
    calc t * s + p < t * s + s := by omega
      _ = (t + 1) * s := by ring
      _ ≤ s * s := Nat.mul_le_mul_right s ht
  have hmain : i * s * s + t * s + p < mesh.vertexCount * s * s := by
    have h1 : i * s * s + (t * s + p) < i * s * s + s * s :=
      Nat.add_lt_add_left htp (i * s * s)
    have h2 : i * s * s + s * s = (i + 1) * s * s := by ring
    have h3 : (i + 1) * s * s ≤ mesh.vertexCount * s * s :=
      Nat.mul_le_mul_right s (Nat.mul_le_mul_right s hi)
    omega
  have hk1 : drawIndex s i t p < 2 * (mesh.vertexCount * s * s) := by
    unfold drawIndex
    omega
  have hk2 : drawIndex s i t p + 1 < 2 * (mesh.vertexCount * s * s) := by
    unfold drawIndex
    omega
  unfold bounceSampleDir
  rw [h _ hk1, h _ hk2]

lemma bounceStep_entropy_congr (q : RayQuery) (mesh : Mesh) (s : ℕ) (M : TMatrix)
    (ea eb : Entropy)
    (h : ∀ k, k < 2 * (mesh.vertexCount * s * s) → ea k = eb k) :
    bounceStep q mesh ea s M = bounceStep q mesh eb s M := by
  funext j i
  rw [bounceStep_apply, bounceStep_apply]
  by_cases hi : i < mesh.vertexCount
  · rw [if_pos hi, if_pos hi, vertexExtra_entropy_congr q M mesh ea eb s i j hi h]
  · rw [if_neg hi, if_neg hi]

/-- C1 amended: the precompute sampling is deterministic only relative to
the sequence of values drawn from std::random_device.  The source has no
seed input at all - each bounce sample re-seeds a fresh mt19937 from
std::random_device inside the innermost loop - but if two runs consume
identical draw sequences (on the finitely many draws a bounce actually
reads), the bounce accumulation produces identical transport matrices. -/
theorem c1_determinism_relative_to_draws (q : RayQuery) (mesh : Mesh) (s : ℕ)
    (base : TMatrix) (e1 e2 : ℕ → Entropy) (b : ℕ)
    (h : ∀ bi, bi < b → ∀ k, k < 2 * (mesh.vertexCount * s * s) → e1 bi k = e2 bi k) :
    afterBounces q mesh e1 s base b = afterBounces q mesh e2 s base b := by
  induction b with
  | zero => rfl
  | succ b ih =>
      have hb : ∀ bi, bi < b → ∀ k, k < 2 * (mesh.vertexCount * s * s) →
          e1 bi k = e2 bi k :=
        fun bi hbi => h bi (Nat.lt_succ_of_lt hbi)
      show bounceStep q mesh (e1 b) s (afterBounces q mesh e1 s base b)
          = bounceStep q mesh (e2 b) s (afterBounces q mesh e2 s base b)
      rw [ih hb]
      exact bounceStep_entropy_congr q mesh s _ (e1 b) (e2 b)
        (h b (Nat.lt_succ_self b))

/-- Witness for c1_determinism_relative_to_draws: two distinct entropy
streams that agree on the two draws the single one-vertex bounce consumes
give the same result. -/
theorem c1_determinism_witness :
    (∀ bi, bi < 1 → ∀ k, k < 2 * (wMesh.vertexCount * 1 * 1) → wE0 k = wE2 k)
    ∧ afterBounces wQnone wMesh (fun _ => wE0) 1 wMzero 1
        = afterBounces wQnone wMesh (fun _ => wE2) 1 wMzero 1 := by
  have h : ∀ bi, bi < 1 → ∀ k, k < 2 * (wMesh.vertexCount * 1 * 1) →
      wE0 k = wE2 k := by
    intro bi _ k hk
    have hk2 : k < 2 := by simpa [wMesh] using hk
    simp [wE0, wE2, hk2]
  exact ⟨h, c1_determinism_relative_to_draws wQnone wMesh 1 wMzero
    (fun _ => wE0) (fun _ => wE2) 1 h⟩

lemma bounceSampleDir_const (c : ℝ) :
    bounceSampleDir (fun _ => c) 1 0 0 0
      = toVector (2 * Real.pi * c) (Real.arccos (2 * c - 1)) := by
  unfold bounceSampleDir
  norm_num

/-- C1 counterexample: with identical program inputs (same mesh, scene
query, sample count and base transport matrix) but different values drawn
from the nondeterministic source, the bounce accumulation produces
different transport outputs, refuting the claim that the sampling is a
deterministic function of a threaded seed rather than of the
nondeterministic source. -/
theorem c1_counterexample :
    afterBounces wQhit wMesh (fun _ => wEhalf) 1 wMones 1 0 0
      ≠ afterBounces wQhit wMesh (fun _ => wEone) 1 wMones 1 0 0 := by
  have hwi1 : bounceSampleDir wEhalf 1 0 0 0 = Vec3.mk (-1) 0 0 := by
    have h0 : wEhalf = fun _ => (1 : ℝ) / 2 := rfl
    rw [h0, bounceSampleDir_const]
    rw [show (2 : ℝ) * (1 / 2) - 1 = 0 by norm_num, Real.arccos_zero]
    rw [show (2 : ℝ) * Real.pi * (1 / 2) = Real.pi by ring]
    unfold toVector
    rw [Real.sin_pi_div_two, Real.cos_pi, Real.sin_pi, Real.cos_pi_div_two]
    simp only [Vec3.mk.injEq]
    norm_num
  have hwi2 : bounceSampleDir wEone 1 0 0 0 = Vec3.mk 0 0 1 := by
    have h0 : wEone = fun _ => (1 : ℝ) := rfl
    rw [h0, bounceSampleDir_const]
    rw [show (2 : ℝ) * 1 - 1 = 1 by norm_num, Real.arccos_one]
    unfold toVector
    rw [Real.sin_zero, Real.cos_zero]
    simp only [Vec3.mk.injEq]
    norm_num
  have hc1 : cosain (Vec3.mk (-1) 0 0) (Vec3.mk 0 0 1) = 0 := by
    unfold cosain normalizeV normV dotV smulV
    norm_num
  have hc2 : cosain (Vec3.mk 0 0 1) (Vec3.mk 0 0 1) = 1 := by
    unfold cosain normalizeV normV dotV smulV
    norm_num
  have h1 : afterBounces wQhit wMesh (fun _ => wEhalf) 1 wMones 1 0 0 = 1 := by
    show bounceStep wQhit wMesh wEhalf 1
        (afterBounces wQhit wMesh (fun _ => wEhalf) 1 wMones 0) 0 0 = 1
    rw [show afterBounces wQhit wMesh (fun _ => wEhalf) 1 wMones 0 = wMones from rfl]
    rw [bounceStep_apply]
    rw [if_pos (show (0 : ℕ) < wMesh.vertexCount by decide)]
    have hextra : vertexExtra wQhit wMones wMesh wEhalf 1 0 0 = 0 := by
      unfold vertexExtra vertexExtraRaw
      rw [Finset.sum_range_one, Finset.sum_range_one, hwi1]
      unfold bounceSampleContrib
      rw [show wQhit ⟨wMesh.pos 0, Vec3.mk (-1) 0 0⟩ = some wHit from rfl]
      dsimp only
      rw [show wMesh.normal 0 = Vec3.mk 0 0 1 from rfl, hc1]
      rw [if_neg (lt_irrefl 0)]
      exact zero_mul _
    rw [hextra]
    show (1 : ℝ) + 0 = 1
    norm_num
  have h2 : afterBounces wQhit wMesh (fun _ => wEone) 1 wMones 1 0 0
      = 1 + 4 * Real.pi := by
    show bounceStep wQhit wMesh wEone 1
        (afterBounces wQhit wMesh (fun _ => wEone) 1 wMones 0) 0 0 = 1 + 4 * Real.pi
    rw [show afterBounces wQhit wMesh (fun _ => wEone) 1 wMones 0 = wMones from rfl]
    rw [bounceStep_apply]
    rw [if_pos (show (0 : ℕ) < wMesh.vertexCount by decide)]
    have hextra : vertexExtra wQhit wMones wMesh wEone 1 0 0 = 4 * Real.pi := by
      unfold vertexExtra vertexExtraRaw
      rw [Finset.sum_range_one, Finset.sum_range_one, hwi2]
      unfold bounceSampleContrib
      rw [show wQhit ⟨wMesh.pos 0, Vec3.mk 0 0 1⟩ = some wHit from rfl]
      dsimp only
      rw [show wMesh.normal 0 = Vec3.mk 0 0 1 from rfl, hc2]
      rw [if_pos one_pos]
      have hinterp : interpSH wMones wHit 0 = 1 := by
        unfold interpSH
        show (1 : ℝ) * 1 + 1 * 0 + 1 * 0 = 1
        norm_num
      rw [hinterp]
      unfold weight
      norm_num
    rw [hextra]
    show (1 : ℝ) + 4 * Real.pi = 1 + 4 * Real.pi
    rfl
  rw [h1, h2]
  intro h
  have := Real.pi_pos
  linarith

/-! Persistence of the transport matrix (the transport text file). -/

/-- One line of a persisted text file: either the integer vertex count or
a row of coefficient values. -/
inductive FileLine where
  | count : ℕ → FileLine
  | coeffs : List ℝ → FileLine

/-- The 9 coefficient values of one vertex, in SH index order, as written
by the inner j-loop of the save code. -/
def coeffLine (M : TMatrix) (i : ℕ) : List ℝ :=
  (List.range SHCoeffLength).map fun j => M j i

/-- The three lines emitted for one triangle: one line per triangle
vertex, in the triangle's vertex-index order idx0, idx1, idx2. -/
def triLines (M : TMatrix) (tri : ℕ × ℕ × ℕ) : List FileLine :=
  [FileLine.coeffs (coeffLine M tri.1), FileLine.coeffs (coeffLine M tri.2.1),
   FileLine.coeffs (coeffLine M tri.2.2)]

/-- Embeds the transport file writer of preprocess: the vertex count is
written first, then the save loop appends three coefficient lines per
triangle, indexing the triangle list by position f. -/
def transportFileOf (mesh : Mesh) (M : TMatrix) : List FileLine :=
  (List.range mesh.triangles.length).foldl
    (fun acc f => acc ++ triLines M (mesh.triangles.getD f (0, 0, 0)))
    [FileLine.count mesh.vertexCount]

/-- From the spec: the transport file is the vertex count line followed,
for each mesh triangle in order, by exactly three per-vertex coefficient
lines; vertices shared by several triangles are repeated once per
adjacent triangle. -/
def specTransportFile (mesh : Mesh) (M : TMatrix) : List FileLine :=
  FileLine.count mesh.vertexCount :: mesh.triangles.flatMap (triLines M)

lemma foldl_triLines (M : TMatrix) :
    ∀ (l : List (ℕ × ℕ × ℕ)) (acc : List FileLine),
      (List.range l.length).foldl (fun acc f => acc ++ triLines M (l.getD f (0, 0, 0))) acc
        = acc ++ l.flatMap (triLines M) := by
  intro l
  induction l using List.reverseRecOn with
  | nil => intro acc; simp
  | append_singleton l a ih =>
      intro acc
      rw [List.length_append, List.length_singleton, List.range_succ,
        List.foldl_append]
      have hstep : (List.range l.length).foldl
          (fun acc f => acc ++ triLines M ((l ++ [a]).getD f (0, 0, 0))) acc
            = (List.range l.length).foldl
              (fun acc f => acc ++ triLines M (l.getD f (0, 0, 0))) acc := by
        apply List.foldl_ext
        intro acc2 f hf
        rw [List.mem_range] at hf
        rw [List.getD_append l [a] (0, 0, 0) f hf]
      rw [hstep, ih]
      rw [List.foldl_cons, List.foldl_nil]
      rw [List.getD_append_right l [a] (0, 0, 0) l.length (le_refl _)]
      simp [List.flatMap_append]

lemma transportFileOf_eq_spec (mesh : Mesh) (M : TMatrix) :
    transportFileOf mesh M = specTransportFile mesh M := by
  unfold transportFileOf specTransportFile
  rw [foldl_triLines]
  rfl

lemma flatMap_triLines_length (M : TMatrix) :
    ∀ l : List (ℕ × ℕ × ℕ), (l.flatMap (triLines M)).length = 3 * l.length := by
  intro l
  induction l with
  | nil => simp
  | cons a l ih =>
      rw [List.flatMap_cons, List.length_append, ih, List.length_cons]
      show (triLines M a).length + 3 * l.length = 3 * (l.length + 1)
      rw [show (triLines M a).length = 3 from rfl]
      ring

lemma transportFileOf_length (mesh : Mesh) (M : TMatrix) :
    (transportFileOf mesh M).length = 1 + 3 * mesh.triangles.length := by
  rw [transportFileOf_eq_spec]
  unfold specTransportFile
  rw [List.length_cons, flatMap_triLines_length]
  omega

lemma coeffLine_length (M : TMatrix) (i : ℕ) : (coeffLine M i).length = 9 := by
  unfold coeffLine
  rw [List.length_map, List.length_range]
  rfl

lemma coeffLine_getD (M : TMatrix) (i j : ℕ) (hj : j < 9) :
    (coeffLine M i).getD j 0 = M j i := by
  unfold coeffLine
  have hj2 : j < SHCoeffLength := hj
  rw [List.getD_eq_getElem?_getD, List.getElem?_map, List.getElem?_range hj2]
  rfl

/-- C8: the persisted transport file is the vertex count line followed by
exactly three lines per mesh triangle, one per triangle vertex in the
triangle's index order, each line carrying the 9 SH coefficients of that
vertex in SH index order; shared vertices are repeated per adjacent
triangle (the flatMap structure of the spec-side description). -/
theorem c8_transport_file_format (mesh : Mesh) (M : TMatrix) :
    transportFileOf mesh M = specTransportFile mesh M
    ∧ (transportFileOf mesh M).length = 1 + 3 * mesh.triangles.length
    ∧ (∀ i, (coeffLine M i).length = 9
        ∧ ∀ j, j < 9 → (coeffLine M i).getD j 0 = M j i) :=
  ⟨transportFileOf_eq_spec mesh M, transportFileOf_length mesh M,
    fun i => ⟨coeffLine_length M i, fun j hj => coeffLine_getD M i j hj⟩⟩

/-- Witness for c8_transport_file_format, instantiating the inner bound at
coefficient index 0 of vertex 0. -/
theorem c8_transport_file_witness :
    (0 : ℕ) < 9 ∧ (coeffLine wMones 0).getD 0 0 = wMones 0 0 :=
  ⟨by decide, ((c8_transport_file_format wMesh wMones).2.2 0).2 0 (by decide)⟩

/-! The runtime evaluator Li. -/

/-- The light coefficient matrix, one 9-length row per color channel
(rows 0, 1, 2 of m_LightCoeffs). -/
structure LightM where
  r : ℕ → ℝ
  g : ℕ → ℝ
  b : ℕ → ℝ

/-- Dot product of a light row with a transport column over the 9 SH
coefficients. -/
def dotSH (row col : ℕ → ℝ) : ℝ :=
  ∑ j ∈ Finset.range SHCoeffLength, row j * col j

/-- The integrator state read by Li: the scene query and the two
persisted coefficient matrices. -/
structure PRTState where
  query : RayQuery
  transport : TMatrix
  light : LightM

/-- Embeds PRTIntegrator.Li: on a miss return black; on a hit take the
transport columns of the three hit vertex indices, dot each against the
three light rows to get three per-vertex colors, and combine them with
the barycentric weights.  The method is const: the state is returned
unchanged. -/
def Li (st : PRTState) (ray : Ray) : Vec3 × PRTState :=
  match st.query ray with
  | none => (⟨0, 0, 0⟩, st)
  | some its =>
      (addV (addV
          (smulV its.bary.x
            ⟨dotSH st.light.r (fun j => st.transport j its.i0),
             dotSH st.light.g (fun j => st.transport j its.i0),
             dotSH st.light.b (fun j => st.transport j its.i0)⟩)
          (smulV its.bary.y
            ⟨dotSH st.light.r (fun j => st.transport j its.i1),
             dotSH st.light.g (fun j => st.transport j its.i1),
             dotSH st.light.b (fun j => st.transport j its.i1)⟩))
        (smulV its.bary.z
          ⟨dotSH st.light.r (fun j => st.transport j its.i2),
           dotSH st.light.g (fun j => st.transport j its.i2),
           dotSH st.light.b (fun j => st.transport j its.i2)⟩), st)

/-- From the spec: the per-vertex RGB color of the Runtime Evaluator, one
channel dot product per light row at the transport column of the vertex. -/
def vertexColor (L : LightM) (T : TMatrix) (i : ℕ) : Vec3 :=
  ⟨dotSH L.r (fun j => T j i), dotSH L.g (fun j => T j i), dotSH L.b (fun j => T j i)⟩

/-- From the spec: the Runtime Evaluator returns zero on a miss, and on a
hit barycentric-interpolates the three per-vertex colors. -/
def specLi (q : RayQuery) (T : TMatrix) (L : LightM) (ray : Ray) : Vec3 :=
  (q ray).elim ⟨0, 0, 0⟩ fun h =>
    addV (addV (smulV h.bary.x (vertexColor L T h.i0))
        (smulV h.bary.y (vertexColor L T h.i1)))
      (smulV h.bary.z (vertexColor L T h.i2))

/-- C9: the runtime evaluator returns zero on a miss and the barycentric
interpolation of the three per-vertex dot-product colors on a hit, and it
is pure: the state component of the result is the input state,
unchanged. -/
theorem c9_runtime_evaluator (st : PRTState) (ray : Ray) :
    Li st ray = (specLi st.query st.transport st.light ray, st) := by
  unfold Li specLi vertexColor
  cases h : st.query ray with
  | none => rfl
  | some its => rfl

/-! The full transport side of preprocess, for the mesh-selection claim. -/

/-- Modelled from the spec: the external sh::ProjectFunction of the SH
library (not part of this repository) projects a spherical function onto
the SH basis by the same stratified Monte Carlo scheme as the bounce
loop: a sample_side x sample_side grid of uniform draws mapped to
(phi, theta), each sample weighted by the basis value, summed and scaled
by the uniform-sphere weight.  The basis evaluator shB is the external
sh::EvalSH collaborator, passed as a parameter. -/
def projectFunction (shB : ℕ → ℝ → ℝ → ℝ) (f : ℝ → ℝ → ℝ) (n : ℕ) (e : Entropy)
    (j : ℕ) : ℝ :=
  (∑ t ∈ Finset.range (sampleSide n), ∑ p ∈ Finset.range (sampleSide n),
      shB j (2 * Real.pi * (((p : ℝ) + e (drawIndex (sampleSide n) 0 t p + 1)) / (sampleSide n : ℝ)))
          (Real.arccos (2 * (((t : ℝ) + e (drawIndex (sampleSide n) 0 t p)) / (sampleSide n : ℝ)) - 1))
        * f (2 * Real.pi * (((p : ℝ) + e (drawIndex (sampleSide n) 0 t p + 1)) / (sampleSide n : ℝ)))
            (Real.arccos (2 * (((t : ℝ) + e (drawIndex (sampleSide n) 0 t p)) / (sampleSide n : ℝ)) - 1)))
    * weight (sampleSide n)

/-- The base transport pass: one projected column per vertex of the mesh,
using the policy transport function and the boolean ray query. -/
def baseTransport (shB : ℕ → ℝ → ℝ → ℝ) (ty : PType) (q : RayQuery) (mesh : Mesh)
    (n : ℕ) (eB : ℕ → Entropy) : TMatrix :=
  fun j i =>
    projectFunction shB
      (shFunc ty (fun r => (q r).isSome) (mesh.pos i) (mesh.normal i)) n (eB i) j

/-- The transport matrix handed to persistence: the base pass, refined by
the configured number of interreflection bounces when that policy is
selected. -/
def finalMatrix (shB : ℕ → ℝ → ℝ → ℝ) (cfg : PRTConfig) (q : RayQuery) (mesh : Mesh)
    (eB : ℕ → Entropy) (eFam : ℕ → Entropy) : TMatrix :=
  match cfg.ty with
  | PType.interreflection =>
      afterBounces q mesh eFam (sampleSide cfg.sampleCount)
        (baseTransport shB cfg.ty q mesh cfg.sampleCount eB) cfg.bounce
  | _ => baseTransport shB cfg.ty q mesh cfg.sampleCount eB

/-- The transport side of preprocess: the source takes getMeshes()[0] and
computes and persists coefficients for that mesh alone. -/
def preprocessTransport (shB : ℕ → ℝ → ℝ → ℝ) (cfg : PRTConfig) (scene : Scene)
    (eB : ℕ → Entropy) (eFam : ℕ → Entropy) : TMatrix × List FileLine :=
  (finalMatrix shB cfg scene.query scene.meshes.headI eB eFam,
   transportFileOf scene.meshes.headI
     (finalMatrix shB cfg scene.query scene.meshes.headI eB eFam))

/-- C10: the precompute transport output depends only on mesh 0 and the
scene query: two nonempty scenes with the same first mesh and the same
query give identical transport matrices and identical persisted files, so
vertices of any further mesh receive no coefficients and never appear in
the file, whose length is governed by mesh 0 alone. -/
theorem c10_only_first_mesh (shB : ℕ → ℝ → ℝ → ℝ) (cfg : PRTConfig)
    (s1 s2 : Scene) (eB : ℕ → Entropy) (eFam : ℕ → Entropy)
    (h1 : s1.meshes ≠ []) (h2 : s2.meshes ≠ [])
    (hm : s1.meshes.headI = s2.meshes.headI) (hq : s1.query = s2.query) :
    preprocessTransport shB cfg s1 eB eFam = preprocessTransport shB cfg s2 eB eFam
    ∧ (preprocessTransport shB cfg s1 eB eFam).2.length
        = 1 + 3 * s1.meshes.headI.triangles.length := by
  constructor
  · unfold preprocessTransport
    rw [hm, hq]
  · exact transportFileOf_length s1.meshes.headI _

/-- A second mesh whose vertices differ from wMesh everywhere. -/
def wMesh2 : Mesh := ⟨2, fun _ => ⟨1, 0, 0⟩, fun _ => ⟨0, 1, 0⟩, [(0, 1, 0)]⟩

/-- A one-mesh scene. -/
def wScene1 : Scene := ⟨[wMesh], wQnone⟩

/-- A two-mesh scene sharing mesh 0 and the query with wScene1. -/
def wScene2 : Scene := ⟨[wMesh, wMesh2], wQnone⟩

/-- A trivial external SH basis evaluator. -/
def wShB : ℕ → ℝ → ℝ → ℝ := fun _ _ _ => 0

/-- A concrete interreflection configuration. -/
def wCfg : PRTConfig := ⟨100, "cube", PType.interreflection, 1⟩

/-- Witness for c10_only_first_mesh: adding a second mesh leaves the
transport output unchanged. -/
theorem c10_only_first_mesh_witness :
    (wScene1.meshes ≠ [] ∧ wScene2.meshes ≠ []
      ∧ wScene1.meshes.headI = wScene2.meshes.headI ∧ wScene1.query = wScene2.query)
    ∧ preprocessTransport wShB wCfg wScene1 (fun _ => wE0) (fun _ => wE0)
        = preprocessTransport wShB wCfg wScene2 (fun _ => wE0) (fun _ => wE0) := by
  have h1 : wScene1.meshes ≠ [] := by simp [wScene1]
  have h2 : wScene2.meshes ≠ [] := by simp [wScene2]
  exact ⟨⟨h1, h2, rfl, rfl⟩,
    (c10_only_first_mesh wShB wCfg wScene1 wScene2 (fun _ => wE0) (fun _ => wE0)
      h1 h2 rfl rfl).1⟩

end

end PRT
